import Mathlib

/-!
Shallow embedding of the chessboard application (src/src/App.tsx) and
verification of its specification.

Modelling conventions:
* JavaScript numbers are modelled as rationals (`ℚ`): every arithmetic
  operation the program performs on coordinates (subtraction, `Math.abs`,
  `===` comparison) is exact on the values that occur.
* A `Coord` is the TypeScript tuple type `[number, number]`, i.e. `ℚ × ℚ`.
* JavaScript `===` on numbers is rendered as `decide (· = ·)` and
  `Array.prototype.includes` as list membership.
* Untyped payload data arriving from the drag-and-drop library is modelled
  by the `JSVal` type, which carries exactly the structure inspected by the
  validation guards `isCoord` and `isPieceType`.
* `pieces.filter((p) => p !== piece)` in the drop handler removes, by
  reference inequality, exactly the array occurrence that `find` returned
  (the program never aliases one piece object into two array slots), so it
  is modelled as `List.eraseIdx` at the index found by `List.findIdx?`.
* Rendering, styling, image assets and the drag-sensing library itself are
  outside the embedded core, as in the specification.
-/

/-- Untyped JavaScript values, as far as the validation guards inspect them.
Numbers are exact rationals; `undef` stands for `undefined`. -/
inductive JSVal where
  | num (value : ℚ)
  | str (value : String)
  | boolean (value : Bool)
  | undef
  | arr (elems : List JSVal)

/-- Coordinate tuple `export type Coord = [number, number]` (App.tsx line 17),
as a (row, column) pair. -/
abbrev Coord := ℚ × ℚ

/-- Piece kinds `export type PieceType = "king" | "pawn"` (App.tsx line 19). -/
inductive PieceType where
  | king
  | pawn
deriving DecidableEq, Repr

/-- Record `PieceRecord = { type: PieceType; location: Coord }`
(App.tsx lines 21-24). -/
structure PieceRecord where
  type : PieceType
  location : Coord
deriving DecidableEq, Repr

/-- Function `isEqualCoord` (App.tsx lines 33-35):
`c1[0] === c2[0] && c1[1] === c2[1]`. -/
def isEqualCoord (c1 c2 : Coord) : Bool :=
  decide (c1.1 = c2.1) && decide (c1.2 = c2.2)

/-- Function `canMove` (App.tsx lines 44-65).  The destination-occupancy
check comes first; the `switch` on the piece kind follows.  The TypeScript
`default` branch is unreachable because `PieceType` has exactly the two
listed constructors. -/
def canMove (start destination : Coord) (pieceType : PieceType)
    (pieces : List PieceRecord) : Bool :=
  let rowDist : ℚ := |start.1 - destination.1|
  let colDist : ℚ := |start.2 - destination.2|
  if (pieces.find? (fun piece => isEqualCoord piece.location destination)).isSome then
    false
  else
    match pieceType with
    | .king => decide (rowDist ∈ ([0, 1] : List ℚ)) && decide (colDist ∈ ([0, 1] : List ℚ))
    | .pawn => decide (colDist = 0) && decide (start.1 - destination.1 = -1)

/-- Constant `pieceTypes: PieceType[] = ["king", "pawn"]` (App.tsx line 92). -/
def pieceTypes : List String := ["king", "pawn"]

/-- Predicate `typeof val === "number"` on a `JSVal`. -/
def isNumber : JSVal → Bool
  | .num _ => true
  | _ => false

/-- Type guard `isCoord` (App.tsx lines 84-90):
`Array.isArray(token) && token.length === 2 && token.every(val => typeof val === "number")`. -/
def isCoord : JSVal → Bool
  | .arr token => decide (token.length = 2) && token.all isNumber
  | _ => false

/-- Type guard `isPieceType` (App.tsx lines 94-96):
`typeof value === "string" && pieceTypes.includes(value)`. -/
def isPieceType : JSVal → Bool
  | .str value => decide (value ∈ pieceTypes)
  | _ => false

/-- TypeScript narrowing of a value for which `isCoord` returned `true`:
the value is read back as the coordinate it already is.  The fallback
branch is unreachable under the `isCoord` guard. -/
def toCoord : JSVal → Coord
  | .arr [.num a, .num b] => (a, b)
  | _ => (0, 0)

/-- TypeScript narrowing of a value for which `isPieceType` returned `true`.
The fallback branch is unreachable under the `isPieceType` guard. -/
def toPieceType : JSVal → PieceType
  | .str "king" => .king
  | .str "pawn" => .pawn
  | _ => .king

/-- Per-square hover state `type HoveredState = "idle" | "validMove" | "invalidMove"`
(App.tsx line 82). -/
inductive HoveredState where
  | idle
  | validMove
  | invalidMove
deriving DecidableEq, Repr

/-- Handler `onDragEnter` of a `Square`'s drop target (App.tsx lines 116-131):
a malformed payload is ignored (state unchanged); otherwise the square is
classified by `canMove` against the current board. -/
def onDragEnter (pieces : List PieceRecord) (location : Coord)
    (sourceLocation sourcePieceType : JSVal) (state : HoveredState) : HoveredState :=
  if !isCoord sourceLocation || !isPieceType sourcePieceType then
    state
  else if canMove (toCoord sourceLocation) location (toPieceType sourcePieceType) pieces then
    .validMove
  else
    .invalidMove

/-- Handler `onDragLeave: () => setState("idle")` (App.tsx line 132). -/
def onDragLeave (_state : HoveredState) : HoveredState :=
  .idle

/-- Handler `onDrop: () => setState("idle")` of a `Square` (App.tsx line 133). -/
def squareOnDrop (_state : HoveredState) : HoveredState :=
  .idle

/-- Initial board of the `Chessboard` component (App.tsx lines 171-174):
one king at (3,2) and one pawn at (1,6). -/
def initialPieces : List PieceRecord :=
  [{ type := .king, location := (3, 2) }, { type := .pawn, location := (1, 6) }]

/-- Commit step of the monitor's drop handler (App.tsx lines 195-208): find
the piece at the source location; if the move is legal and a piece was
found, the new board is that piece relocated to the destination, consed
onto the remaining pieces; otherwise the board is unchanged.  The relocated
record takes `piece.type` from the board, not from the drag payload. -/
def commitMove (pieces : List PieceRecord) (sourceLocation destinationLocation : Coord)
    (pieceType : PieceType) : List PieceRecord :=
  match pieces.findIdx? (fun p => isEqualCoord p.location sourceLocation) with
  | none => pieces
  | some i =>
    match pieces[i]? with
    | none => pieces
    | some piece =>
      let restOfPieces := pieces.eraseIdx i
      if canMove sourceLocation destinationLocation pieceType pieces then
        { type := piece.type, location := destinationLocation } :: restOfPieces
      else
        pieces

/-- Data reaching the `monitorForElements` drop handler (App.tsx lines 178-193):
the `data.location` of each drop target under the release point, and the
source's `data.location` and `data.pieceType`, all as untyped values. -/
structure DropEvent where
  dropTargets : List JSVal
  sourceLocation : JSVal
  sourcePieceType : JSVal

/-- Monitor drop handler `onDrop` (App.tsx lines 178-209): no drop target
means no-op; a malformed destination, source or piece kind means no-op;
otherwise the commit step runs. -/
def onDrop (pieces : List PieceRecord) (event : DropEvent) : List PieceRecord :=
  match event.dropTargets with
  | [] => pieces
  | destinationLocation :: _ =>
    if !isCoord destinationLocation || !isCoord event.sourceLocation
        || !isPieceType event.sourcePieceType then
      pieces
    else
      commitMove pieces (toCoord event.sourceLocation) (toCoord destinationLocation)
        (toPieceType event.sourcePieceType)

/-- Boards reachable from the initial board by repeated drop events. -/
inductive Reachable : List PieceRecord → Prop where
  | init : Reachable initialPieces
  | step (pieces : List PieceRecord) (event : DropEvent) :
      Reachable pieces → Reachable (onDrop pieces event)

/-! ### Helper lemmas -/

theorem isEqualCoord_iff (c1 c2 : Coord) : isEqualCoord c1 c2 = true ↔ c1 = c2 := by
  simp [isEqualCoord, Prod.ext_iff]

theorem find?_location_eq_none (destination : Coord) (pieces : List PieceRecord) :
    pieces.find? (fun piece => isEqualCoord piece.location destination) = none ↔
      ∀ p ∈ pieces, p.location ≠ destination := by
  simp [List.find?_eq_none, isEqualCoord_iff]

theorem canMove_of_occupied (start destination : Coord) (pieceType : PieceType)
    (pieces : List PieceRecord) (hocc : ∃ p ∈ pieces, p.location = destination) :
    canMove start destination pieceType pieces = false := by
  obtain ⟨p, hp, hloc⟩ := hocc
  have hfind : (pieces.find? (fun piece => isEqualCoord piece.location destination)).isSome := by
    rw [List.find?_isSome]
    exact ⟨p, hp, (isEqualCoord_iff _ _).mpr hloc⟩
  simp [canMove, hfind]

theorem canMove_of_unoccupied (start destination : Coord) (pieceType : PieceType)
    (pieces : List PieceRecord) (h : ∀ p ∈ pieces, p.location ≠ destination) :
    canMove start destination pieceType pieces =
      match pieceType with
      | .king => decide (|start.1 - destination.1| ∈ ([0, 1] : List ℚ)) &&
          decide (|start.2 - destination.2| ∈ ([0, 1] : List ℚ))
      | .pawn => decide (|start.2 - destination.2| = 0) &&
          decide (start.1 - destination.1 = -1) := by
  have hfind : pieces.find? (fun piece => isEqualCoord piece.location destination) = none :=
    (find?_location_eq_none destination pieces).mpr h
  simp [canMove, hfind]

theorem canMove_true_unoccupied (start destination : Coord) (pieceType : PieceType)
    (pieces : List PieceRecord) (h : canMove start destination pieceType pieces = true) :
    ∀ p ∈ pieces, p.location ≠ destination := by
  intro p hp hloc
  have hfalse := canMove_of_occupied start destination pieceType pieces ⟨p, hp, hloc⟩
  exact Bool.noConfusion (h.symm.trans hfalse)

theorem commitMove_of_absent (pieces : List PieceRecord)
    (sourceLocation destinationLocation : Coord) (pieceType : PieceType)
    (h : ∀ p ∈ pieces, p.location ≠ sourceLocation) :
    commitMove pieces sourceLocation destinationLocation pieceType = pieces := by
  have hfind : pieces.findIdx? (fun p => isEqualCoord p.location sourceLocation) = none := by
    rw [List.findIdx?_eq_none_iff]
    intro p hp
    rw [Bool.eq_false_iff]
    intro hcontra
    exact h p hp ((isEqualCoord_iff _ _).mp hcontra)
  unfold commitMove
  rw [hfind]

theorem commitMove_of_illegal (pieces : List PieceRecord)
    (sourceLocation destinationLocation : Coord) (pieceType : PieceType)
    (h : canMove sourceLocation destinationLocation pieceType pieces = false) :
    commitMove pieces sourceLocation destinationLocation pieceType = pieces := by
  unfold commitMove
  split
  · rfl
  · split
    · rfl
    · simp [h]

theorem commitMove_of_found (pieces : List PieceRecord)
    (sourceLocation destinationLocation : Coord) (pieceType : PieceType)
    (i : ℕ) (piece : PieceRecord)
    (hfind : pieces.findIdx? (fun p => isEqualCoord p.location sourceLocation) = some i)
    (hget : pieces[i]? = some piece)
    (hcan : canMove sourceLocation destinationLocation pieceType pieces = true) :
    commitMove pieces sourceLocation destinationLocation pieceType =
      { type := piece.type, location := destinationLocation } :: pieces.eraseIdx i := by
  unfold commitMove
  rw [hfind]
  simp [hget, hcan]

theorem commitMove_nodup (pieces : List PieceRecord)
    (sourceLocation destinationLocation : Coord) (pieceType : PieceType)
    (h : (pieces.map (·.location)).Nodup) :
    ((commitMove pieces sourceLocation destinationLocation pieceType).map (·.location)).Nodup := by
  cases hfind : pieces.findIdx? (fun p => isEqualCoord p.location sourceLocation) with
  | none => simpa [commitMove, hfind] using h
  | some i =>
    cases hget : pieces[i]? with
    | none => simpa [commitMove, hfind, hget] using h
    | some piece =>
      cases hcan : canMove sourceLocation destinationLocation pieceType pieces with
      | false => simpa [commitMove_of_illegal pieces _ _ _ hcan] using h
      | true =>
        rw [commitMove_of_found pieces _ _ _ i piece hfind hget hcan]
        simp only [List.map_cons, List.nodup_cons]
        refine ⟨?_, ?_⟩
        · intro hmem
          obtain ⟨q, hq, hqloc⟩ := List.mem_map.mp hmem
          have hq' : q ∈ pieces := (List.eraseIdx_sublist pieces i).subset hq
          exact canMove_true_unoccupied _ _ _ _ hcan q hq' hqloc
        · exact h.sublist ((List.eraseIdx_sublist pieces i).map (·.location))

theorem onDrop_nodup (pieces : List PieceRecord) (event : DropEvent)
    (h : (pieces.map (·.location)).Nodup) :
    ((onDrop pieces event).map (·.location)).Nodup := by
  obtain ⟨targets, sourceLocation, sourcePieceType⟩ := event
  cases targets with
  | nil => simpa [onDrop] using h
  | cons destinationLocation rest =>
    simp only [onDrop]
    split
    · exact h
    · exact commitMove_nodup pieces _ _ _ h

/-! ### Claim theorems -/

/-- Claim C1, counterexample to the claim as stated: on the board holding
only a pawn at (1,6), `canMove((1,6),(0,6),Pawn,board)` is `false` (the
claim says `true`) and `canMove((1,6),(2,6),Pawn,board)` is `true` (the
claim says `false`): the pawn rule `start[0] - destination[0] === -1`
accepts exactly the increasing-row step. -/
theorem canMove_pawn_direction_counterexample :
    canMove (1, 6) (0, 6) .pawn [{ type := .pawn, location := (1, 6) }] = false ∧
    canMove (1, 6) (2, 6) .pawn [{ type := .pawn, location := (1, 6) }] = true := by
  constructor <;> norm_num [canMove, isEqualCoord, List.find?]

/-- Claim C1, amended: for every origin and destination and every board
whose destination square is unoccupied, `canMove(origin, destination,
Pawn, board)` returns true iff the column delta is 0 and
`destination.row - origin.row == 1` (pawns move exactly one square in the
increasing-row direction, never sideways or backward). -/
theorem canMove_pawn_iff (origin destination : Coord) (pieces : List PieceRecord)
    (hunocc : ∀ p ∈ pieces, p.location ≠ destination) :
    canMove origin destination .pawn pieces = true ↔
      |origin.2 - destination.2| = 0 ∧ destination.1 - origin.1 = 1 := by
  rw [canMove_of_unoccupied origin destination .pawn pieces hunocc]
  simp only [Bool.and_eq_true, decide_eq_true_eq]
  constructor
  · rintro ⟨h1, h2⟩
    exact ⟨h1, by linarith⟩
  · rintro ⟨h1, h2⟩
    exact ⟨h1, by linarith⟩

/-- Claim C1 witness: on the board holding only a pawn at (1,6), the move
(1,6) → (2,6) is accepted. -/
theorem canMove_pawn_iff_witness :
    canMove (1, 6) (2, 6) .pawn [{ type := .pawn, location := (1, 6) }] = true :=
  (canMove_pawn_iff (1, 6) (2, 6) [{ type := .pawn, location := (1, 6) }]
    (by norm_num [Prod.ext_iff])).mpr (by norm_num)

/-- Claim C2: for every origin, destination, piece kind and board, if any
piece in the board has location equal to the destination then `canMove`
returns false, independent of the kind-specific delta rules. -/
theorem canMove_occupied_destination_rejected (origin destination : Coord)
    (pieceType : PieceType) (pieces : List PieceRecord)
    (hocc : ∃ p ∈ pieces, p.location = destination) :
    canMove origin destination pieceType pieces = false :=
  canMove_of_occupied origin destination pieceType pieces hocc

/-- Claim C2 witness: with a king at (3,2) and a pawn at (1,6),
`canMove((3,2),(1,6),King,board)` is false because (1,6) is occupied. -/
theorem canMove_occupied_destination_rejected_witness :
    canMove (3, 2) (1, 6) .king initialPieces = false :=
  canMove_occupied_destination_rejected (3, 2) (1, 6) .king initialPieces
    ⟨{ type := .pawn, location := (1, 6) }, by simp [initialPieces], rfl⟩

/-- Claim C3: for every origin and destination and every board whose
destination square is unoccupied, `canMove(origin, destination, King,
board)` returns true iff `|origin.row - destination.row| ∈ {0,1}` and
`|origin.col - destination.col| ∈ {0,1}`, including the zero-distance case
`origin = destination`. -/
theorem canMove_king_iff (origin destination : Coord) (pieces : List PieceRecord)
    (hunocc : ∀ p ∈ pieces, p.location ≠ destination) :
    canMove origin destination .king pieces = true ↔
      (|origin.1 - destination.1| = 0 ∨ |origin.1 - destination.1| = 1) ∧
      (|origin.2 - destination.2| = 0 ∨ |origin.2 - destination.2| = 1) := by
  rw [canMove_of_unoccupied origin destination .king pieces hunocc]
  simp [List.mem_cons]

/-- Claim C3 witness: with a king at (3,2) and a pawn at (1,6), the move
(3,2) → (4,3) is accepted (diagonal adjacent, unoccupied). -/
theorem canMove_king_iff_witness :
    canMove (3, 2) (4, 3) .king initialPieces = true :=
  (canMove_king_iff (3, 2) (4, 3) initialPieces
    (by norm_num [initialPieces, Prod.ext_iff])).mpr (by norm_num)

/-- Claim C4: when the drop handler's commit step finds a piece at the
origin and `canMove` approves the move, the new collection is the found
piece relocated to the destination consed onto the remaining pieces
(everything else unchanged) and has the same size as before; when no piece
is at the origin, the collection is unchanged. -/
theorem commitMove_frame_condition (pieces : List PieceRecord)
    (sourceLocation destinationLocation : Coord) (pieceType : PieceType) :
    ((∀ p ∈ pieces, p.location ≠ sourceLocation) →
      commitMove pieces sourceLocation destinationLocation pieceType = pieces) ∧
    (∀ (i : ℕ) (piece : PieceRecord),
      pieces.findIdx? (fun p => isEqualCoord p.location sourceLocation) = some i →
      pieces[i]? = some piece →
      canMove sourceLocation destinationLocation pieceType pieces = true →
      commitMove pieces sourceLocation destinationLocation pieceType =
        { type := piece.type, location := destinationLocation } :: pieces.eraseIdx i ∧
      (commitMove pieces sourceLocation destinationLocation pieceType).length =
        pieces.length) := by
  refine ⟨commitMove_of_absent pieces _ _ _, ?_⟩
  intro i piece hfind hget hcan
  have heq := commitMove_of_found pieces _ _ _ i piece hfind hget hcan
  have hi : i < pieces.length := (List.findIdx?_eq_some_iff_getElem.mp hfind).1
  refine ⟨heq, ?_⟩
  rw [heq]
  simp only [List.length_cons, List.length_eraseIdx_of_lt hi]
  omega

/-- Claim C4 witness: committing the king move (3,2) → (4,3) on the
initial board relocates the king and keeps the pawn; committing from the
empty square (0,0) leaves the board unchanged. -/
theorem commitMove_frame_condition_witness :
    commitMove initialPieces (3, 2) (4, 3) .king =
      [{ type := .king, location := (4, 3) }, { type := .pawn, location := (1, 6) }] ∧
    commitMove initialPieces (0, 0) (4, 3) .king = initialPieces := by
  constructor
  · have h := ((commitMove_frame_condition initialPieces (3, 2) (4, 3) .king).2 0
      { type := .king, location := (3, 2) }
      (by norm_num [initialPieces, isEqualCoord, List.findIdx?_cons]) rfl
      (by norm_num [canMove, initialPieces, isEqualCoord, List.find?])).1
    rw [h]
    rfl
  · exact (commitMove_frame_condition initialPieces (0, 0) (4, 3) .king).1
      (by norm_num [initialPieces, Prod.ext_iff])

/-- Claim C5: for every drop event, if there is no drop target under the
release point, or the extracted origin, destination or piece kind is
malformed, or no piece sits at the origin, or `canMove` returns false,
then the drop handler leaves the board unchanged (and, being a total
function, raises no error). -/
theorem onDrop_noop_paths (pieces : List PieceRecord) (event : DropEvent)
    (h : event.dropTargets = []
      ∨ (isCoord (event.dropTargets.headD .undef) && isCoord event.sourceLocation &&
          isPieceType event.sourcePieceType) = false
      ∨ (∀ p ∈ pieces, p.location ≠ toCoord event.sourceLocation)
      ∨ canMove (toCoord event.sourceLocation) (toCoord (event.dropTargets.headD .undef))
          (toPieceType event.sourcePieceType) pieces = false) :
    onDrop pieces event = pieces := by
  obtain ⟨targets, sourceLocation, sourcePieceType⟩ := event
  cases targets with
  | nil => rfl
  | cons destinationLocation rest =>
    simp only [List.headD_cons] at h
    simp only [onDrop]
    cases hd : isCoord destinationLocation with
    | false => simp [hd]
    | true =>
      cases hs : isCoord sourceLocation with
      | false => simp [hd, hs]
      | true =>
        cases hp : isPieceType sourcePieceType with
        | false => simp [hd, hs, hp]
        | true =>
          simp only [hd, hs, hp, Bool.not_true, Bool.or_self, Bool.or_false,
            Bool.false_or, if_false, Bool.false_eq_true]
          rcases h with h | h | h | h
          · exact absurd h (by simp)
          · rw [hd, hs, hp] at h
            exact absurd h (by simp)
          · exact commitMove_of_absent pieces _ _ _ h
          · exact commitMove_of_illegal pieces _ _ _ h

/-- Claim C5 witness: a drop event with no drop target under the pointer
leaves the initial board unchanged. -/
theorem onDrop_noop_paths_witness :
    onDrop initialPieces ⟨[], .undef, .undef⟩ = initialPieces :=
  onDrop_noop_paths initialPieces ⟨[], .undef, .undef⟩ (Or.inl rfl)

/-- Claim C6: on hover-enter with a well-formed payload the square's state
becomes `validMove` exactly when `canMove` approves the hovered move
against the current board and `invalidMove` otherwise; a malformed payload
leaves the state unchanged; hover-leave and drop reset to `idle`
unconditionally. -/
theorem square_hover_classified (pieces : List PieceRecord) (location : Coord)
    (sourceLocation sourcePieceType : JSVal) (state : HoveredState) :
    ((isCoord sourceLocation && isPieceType sourcePieceType) = true →
      onDragEnter pieces location sourceLocation sourcePieceType state =
        if canMove (toCoord sourceLocation) location (toPieceType sourcePieceType) pieces then
          .validMove
        else
          .invalidMove) ∧
    ((isCoord sourceLocation && isPieceType sourcePieceType) = false →
      onDragEnter pieces location sourceLocation sourcePieceType state = state) ∧
    onDragLeave state = .idle ∧ squareOnDrop state = .idle := by
  refine ⟨?_, ?_, rfl, rfl⟩
  · intro hwf
    rw [Bool.and_eq_true] at hwf
    simp [onDragEnter, hwf.1, hwf.2]
  · intro hmal
    cases hs : isCoord sourceLocation with
    | false => simp [onDragEnter, hs]
    | true =>
      cases hp : isPieceType sourcePieceType with
      | false => simp [onDragEnter, hs, hp]
      | true => rw [hs, hp] at hmal; exact absurd hmal (by simp)

/-- Claim C6 witness: hovering the square (4,3) with the king's payload
over the initial board classifies it as a valid move, and hover-leave
resets to idle. -/
theorem square_hover_classified_witness :
    onDragEnter initialPieces (4, 3) (.arr [.num 3, .num 2]) (.str "king") .idle =
      .validMove ∧
    onDragLeave .validMove = .idle := by
  have h := (square_hover_classified initialPieces (4, 3) (.arr [.num 3, .num 2])
    (.str "king") .idle).1 rfl
  refine ⟨?_, rfl⟩
  rw [h]
  have hc : canMove (toCoord (.arr [.num 3, .num 2])) (4, 3)
      (toPieceType (.str "king")) initialPieces = true := by
    norm_num [canMove, toCoord, toPieceType, initialPieces, isEqualCoord, List.find?]
  rw [hc]
  rfl

/-- Claim C7: every board reachable from the initial board by repeated
drop events has pairwise-distinct piece locations (at most one piece per
coordinate), because `canMove` rejects occupied destinations before any
commit. -/
theorem reachable_locations_nodup (pieces : List PieceRecord) (h : Reachable pieces) :
    (pieces.map (·.location)).Nodup := by
  induction h with
  | init => norm_num [initialPieces, Prod.ext_iff]
  | step b ev _ ih => exact onDrop_nodup b ev ih

/-- Claim C7 witness: the invariant holds of the initial board. -/
theorem reachable_locations_nodup_witness :
    (initialPieces.map (·.location)).Nodup :=
  reachable_locations_nodup initialPieces Reachable.init

/-- Claim C8: if some piece of the board sits at `c` then `canMove(c, c,
kind, board)` is false for every kind (the occupancy check counts the
mover itself), and the zero-distance king move at `c` is accepted exactly
when no piece at all occupies `c`. -/
theorem canMove_self_square (c : Coord) (pieceType : PieceType)
    (pieces : List PieceRecord) :
    ((∃ p ∈ pieces, p.location = c) → canMove c c pieceType pieces = false) ∧
    (canMove c c .king pieces = true ↔ ∀ p ∈ pieces, p.location ≠ c) := by
  refine ⟨canMove_of_occupied c c pieceType pieces, ?_, ?_⟩
  · intro htrue
    exact canMove_true_unoccupied c c .king pieces htrue
  · intro hunocc
    rw [canMove_of_unoccupied c c .king pieces hunocc]
    simp

/-- Claim C8 witness: the king standing at (3,2) cannot move to its own
square on the initial board, while the zero-distance king move at the
empty square (9,9) is accepted. -/
theorem canMove_self_square_witness :
    canMove (3, 2) (3, 2) .king initialPieces = false ∧
    canMove (9, 9) (9, 9) .king initialPieces = true :=
  ⟨(canMove_self_square (3, 2) .king initialPieces).1
      ⟨{ type := .king, location := (3, 2) }, by simp [initialPieces], rfl⟩,
    (canMove_self_square (9, 9) .king initialPieces).2.mpr
      (by norm_num [initialPieces, Prod.ext_iff])⟩

/-- Claim C9: `isCoord` accepts every two-element array of numbers,
including negative, fractional or greater-than-7 entries (no board-bounds
or integrality check), and such an origin passes the drop handler's
validation unfiltered, reaching `canMove` and the commit path. -/
theorem isCoord_no_bounds_check (a b : ℚ) :
    isCoord (.arr [.num a, .num b]) = true ∧
    ∀ (pieces : List PieceRecord) (destination sourcePieceType : JSVal),
      isCoord destination = true → isPieceType sourcePieceType = true →
      onDrop pieces ⟨[destination], .arr [.num a, .num b], sourcePieceType⟩ =
        commitMove pieces (a, b) (toCoord destination) (toPieceType sourcePieceType) := by
  refine ⟨rfl, ?_⟩
  intro pieces destination sourcePieceType hdest hpt
  have hsrc : isCoord (.arr [.num a, .num b]) = true := rfl
  simp [onDrop, hdest, hpt, hsrc, toCoord]

/-- Claim C9 witness: the payload origin `[-1/2, 99]` (negative,
fractional, out of range) passes validation and reaches the commit path
against the initial board. -/
theorem isCoord_no_bounds_check_witness :
    isCoord (.arr [.num (-1/2 : ℚ), .num 99]) = true ∧
    onDrop initialPieces ⟨[.arr [.num 0, .num 0]], .arr [.num (-1/2 : ℚ), .num 99],
        .str "king"⟩ =
      commitMove initialPieces (-1/2, 99) (toCoord (.arr [.num 0, .num 0]))
        (toPieceType (.str "king")) :=
  ⟨(isCoord_no_bounds_check (-1/2) 99).1,
    (isCoord_no_bounds_check (-1/2) 99).2 initialPieces (.arr [.num 0, .num 0])
      (.str "king") rfl rfl⟩

/-- Claim C10: when the commit step runs, the relocated piece's type is
the type stored on the board at the origin, while the drag payload's kind
enters only the `canMove` legality check; so a committed piece keeps its
stored type even when the payload kind differs. -/
theorem commitMove_keeps_stored_type (pieces : List PieceRecord)
    (sourceLocation destinationLocation : Coord) (pieceType : PieceType)
    (i : ℕ) (piece : PieceRecord)
    (hfind : pieces.findIdx? (fun p => isEqualCoord p.location sourceLocation) = some i)
    (hget : pieces[i]? = some piece)
    (hcan : canMove sourceLocation destinationLocation pieceType pieces = true) :
    commitMove pieces sourceLocation destinationLocation pieceType =
      { type := piece.type, location := destinationLocation } :: pieces.eraseIdx i :=
  commitMove_of_found pieces sourceLocation destinationLocation pieceType i piece
    hfind hget hcan

/-- Claim C10 witness: a drag payload claiming kind King over the stored
pawn at (1,6) is judged by the king rule (so (1,6) → (2,7) is legal), yet
the committed piece keeps its stored type Pawn. -/
theorem commitMove_keeps_stored_type_witness :
    commitMove [{ type := .pawn, location := (1, 6) }] (1, 6) (2, 7) .king =
      [{ type := .pawn, location := (2, 7) }] := by
  have h := commitMove_keeps_stored_type [{ type := .pawn, location := (1, 6) }]
    (1, 6) (2, 7) .king 0 { type := .pawn, location := (1, 6) }
    (by norm_num [isEqualCoord, List.findIdx?_cons]) rfl
    (by norm_num [canMove, isEqualCoord, List.find?])
  rw [h]
  rfl
